import Mathlib

/-!
Shallow embedding of the sanskrit-website vocabulary pipeline: the CSV
parser and serializer, the field-mapping helpers (`cleanText`, `mapVoice`,
`mapGender`, `determineSubtype`), the convert pass that rewrites the three
source spreadsheets into normalized CSVs, and the import migration that
loads the normalized CSVs into the datastore inside one transaction.

JavaScript strings are modelled as Lean `String`s (manipulated through
their character lists), JavaScript objects with string keys as association
lists with first-match lookup, and possibly-`undefined` values as
`Option`.
-/

/-- JavaScript `s.trim()` on the character list: drop whitespace from both
ends. -/
def trimChars (cs : List Char) : List Char :=
  ((cs.dropWhile Char.isWhitespace).reverse.dropWhile Char.isWhitespace).reverse

/-- JavaScript `s.trim()`. -/
def jsTrim (s : String) : String := ⟨trimChars s.data⟩

/-- JavaScript `s.split(sep)` for a single-character separator, on
character lists. -/
def splitSep (sep : Char) : List Char → List (List Char)
  | [] => [[]]
  | c :: rest =>
    if c = sep then [] :: splitSep sep rest
    else
      match splitSep sep rest with
      | [] => [[c]]
      | g :: gs => (c :: g) :: gs

/-- JavaScript `Array.prototype.join` with a single-character separator, on
character lists. -/
def joinSep (sep : Char) : List (List Char) → List Char
  | [] => []
  | [x] => x
  | x :: xs => x ++ sep :: joinSep sep xs

/-- JavaScript property read `row[key]` on a string-keyed object
(association list, first match). -/
def jsGet (row : List (String × String)) (key : String) : Option String :=
  List.lookup key row

/-- JavaScript `row[key] || ''`: an absent value (and an empty one) becomes
the empty string. -/
def jsGetD (row : List (String × String)) (key : String) : String :=
  (jsGet row key).getD ""

/-- JavaScript `s.toUpperCase()` (basic-latin case mapping). -/
def jsToUpperCase (s : String) : String := ⟨s.data.map Char.toUpper⟩

/-- Decimal value of a run of leading digits; `none` when the first
character is not a digit (models `parseInt` returning `NaN`). -/
def leadingDigits (cs : List Char) : Option Nat :=
  if (cs.headD ' ').isDigit then
    some ((cs.takeWhile Char.isDigit).foldl (fun acc c => acc * 10 + (c.toNat - 48)) 0)
  else none

/-- JavaScript `parseInt(s)` in base 10; `none` models `NaN`. -/
def jsParseInt (s : String) : Option Int :=
  match s.data.dropWhile Char.isWhitespace with
  | '-' :: rest => (leadingDigits rest).map (fun n => -(n : Int))
  | '+' :: rest => (leadingDigits rest).map (fun n => (n : Int))
  | cs => (leadingDigits cs).map (fun n => (n : Int))

/-- A JavaScript value as it appears in the `data` objects handed to the
datastore `create` collaborator by the import migration. -/
inductive JsVal where
  | str (s : String)
  | num (n : Int)
  | nan
  | bool (b : Bool)
  | undef
  deriving DecidableEq

namespace Convert

/-- `cleanText` from the convert script: the sentinel is the empty
string. -/
def cleanText (text : Option String) : String :=
  match text with
  | none => ""
  | some t =>
    if t = "" ∨ t = "—" ∨ t = "-" ∨ jsTrim t = "" then "" else jsTrim t

/-- `mapVoice` from the convert script (`pada?.toUpperCase()` then the
three single-letter comparisons). -/
def mapVoice (pada : Option String) : String :=
  match pada with
  | none => ""
  | some p =>
    let padaUpper := jsToUpperCase p
    if padaUpper = "P" then "parasmaipada"
    else if padaUpper = "A" then "atmanepada"
    else if padaUpper = "U" then "ubhayapada"
    else ""

/-- `mapGender` from the convert script. -/
def mapGender (linga : Option String) : String :=
  if linga = some "m" then "masculine"
  else if linga = some "f" then "feminine"
  else if linga = some "n" then "neuter"
  else ""

/-- `determineSubtype` from the convert script. -/
def determineSubtype (linga : Option String) : String :=
  if linga = some "a" then "adjective"
  else if linga = some "p" then "pronoun"
  else if linga = some "m" ∨ linga = some "f" ∨ linga = some "n" then "noun"
  else ""

/-- The character loop of `parseLine` inside the convert script's
`parseCSV`: `cur` is the `current` buffer, the `Bool` the `inQuotes` flag;
returns the list of trimmed field values of the line. -/
def parseLineAux : List Char → List Char → Bool → List String
  | [], cur, _ => [jsTrim ⟨cur⟩]
  | '"' :: '"' :: rest, cur, true => parseLineAux rest (cur ++ ['"']) true
  | '"' :: rest, cur, true => parseLineAux rest cur false
  | '"' :: rest, cur, false => parseLineAux rest cur true
  | ',' :: rest, cur, true => parseLineAux rest (cur ++ [',']) true
  | ',' :: rest, cur, false => jsTrim ⟨cur⟩ :: parseLineAux rest [] false
  | c :: rest, cur, inQ => parseLineAux rest (cur ++ [c]) inQ

/-- `parseLine` from the convert script. -/
def parseLine (line : String) : List String := parseLineAux line.data [] false

/-- `headers.forEach((header, index) => row[header] = values[index] || '')`:
positional header-to-value assignment with empty-string default for
missing positions. -/
def buildRow : List String → List String → List (String × String)
  | [], _ => []
  | h :: hs, [] => (h, "") :: buildRow hs []
  | h :: hs, v :: vs => (h, v) :: buildRow hs vs

/-- `parseCSV` from the convert script: split into lines, drop lines blank
after trimming, parse the first remaining line as the header row, then
build one record per subsequent row that has at least one non-blank
field. -/
def parseCSV (content : String) : List (List (String × String)) :=
  let lines := ((splitSep '\n' content.data).map (fun cs => (⟨cs⟩ : String))).filter
    (fun line => !(jsTrim line == ""))
  match lines with
  | [] => []
  | headerLine :: rowLines =>
    let headers := parseLine headerLine
    (rowLines.map parseLine).filterMap
      (fun values =>
        if values.any (fun v => !(v == "") && !(jsTrim v == "")) then
          some (buildRow headers values)
        else none)

/-- The `replace(/"/g, '""')` escaping step of `arrayToCSV`: double every
double-quote character. -/
def escapeChars : List Char → List Char
  | [] => []
  | c :: cs => if c = '"' then '"' :: '"' :: escapeChars cs else c :: escapeChars cs

/-- One serialized output field: always wrapped in quotes, after the
escaping step. -/
def quoteField (v : List Char) : List Char := '"' :: (escapeChars v ++ ['"'])

/-- `arrayToCSV` from the convert script: an unquoted header join line,
then one line per row with every field looked up by header, always quoted,
with internal quotes doubled. -/
def arrayToCSV (data : List (List (String × String))) (headers : List String) : String :=
  let headerLine := joinSep ',' (headers.map String.data)
  let rowLines := data.map (fun row =>
    joinSep ',' (headers.map (fun h => quoteField (jsGetD row h).data)))
  ⟨joinSep '\n' (headerLine :: rowLines)⟩

/-- One element of `convertedVerbs`: the normalized record built from a
parsed source row at 0-based `index`. -/
def convertVerbRow (row : List (String × String)) (index : Nat) : List (String × String) :=
  [("word_type", "verb"),
   ("word_devanagari", cleanText (jsGet row "धातु")),
   ("root_devanagari", cleanText (jsGet row "धातु")),
   ("verb_class",
     match jsGet row "गण" with
     | some g => if g ≠ "" ∧ g ≠ "-" then g else ""
     | none => ""),
   ("voice", mapVoice (jsGet row "पद")),
   ("standard_form", cleanText (jsGet row "तिङन्तं लट्")),
   ("meaning_pt", cleanText (jsGet row "Portugués")),
   ("meaning_es", cleanText (jsGet row "Español")),
   ("meaning_en", cleanText (jsGet row "Inglés")),
   ("past_imperfect", cleanText (jsGet row "लङ् / Pasado Imperfecto")),
   ("potential", cleanText (jsGet row "लिङ् / Potencial")),
   ("imperative", cleanText (jsGet row "लोट् / Imperativo")),
   ("past_participle", cleanText (jsGet row "लिट् / Pasado Perfecto")),
   ("gerund", cleanText (jsGet row "क्त्वा / Gerundio")),
   ("infinitive", cleanText (jsGet row "तुमुन् / Infinitivo")),
   ("ppp", cleanText (jsGet row "क्त / PPP")),
   ("itrans", cleanText (jsGet row "ITRANS")),
   ("iast", cleanText (jsGet row "IATS")),
   ("harvard_kyoto", cleanText (jsGet row "Harvard-Kyoto")),
   ("is_published", "true"),
   ("order_index", toString (index + 1))]

/-- `verbsRows.map((row, index) => ...)` with the 0-based index made
explicit. -/
def convertVerbsFrom (index : Nat) :
    List (List (String × String)) → List (List (String × String))
  | [] => []
  | row :: rows => convertVerbRow row index :: convertVerbsFrom (index + 1) rows

/-- `convertedVerbs` from the convert script. -/
def convertedVerbs (rows : List (List (String × String))) : List (List (String × String)) :=
  convertVerbsFrom 0 rows

/-- `verbsHeaders` from the convert script. -/
def verbsHeaders : List String :=
  ["word_type", "word_devanagari", "root_devanagari", "verb_class", "voice",
   "standard_form", "meaning_pt", "meaning_es", "meaning_en",
   "past_imperfect", "potential", "imperative", "past_participle",
   "gerund", "infinitive", "ppp", "itrans", "iast", "harvard_kyoto",
   "is_published", "order_index"]

/-- One element of `convertedSubstantives`. -/
def convertSubstantiveRow (row : List (String × String)) (index : Nat) :
    List (String × String) :=
  [("word_type", "substantive"),
   ("word_subtype", determineSubtype (jsGet row "लिङ्ग")),
   ("word_devanagari", cleanText (jsGet row "सुबन्तं")),
   ("gender", mapGender (jsGet row "लिङ्ग")),
   ("meaning_pt", cleanText (jsGet row "Portugués")),
   ("meaning_es", cleanText (jsGet row "Español")),
   ("meaning_en", cleanText (jsGet row "Inglés")),
   ("itrans", cleanText (jsGet row "ITRANS")),
   ("iast", cleanText (jsGet row "IATS")),
   ("harvard_kyoto", cleanText (jsGet row "Harvard-Kyoto")),
   ("is_published", "true"),
   ("order_index", toString (index + 1))]

/-- `substantivesRows.map((row, index) => ...)` with the index explicit. -/
def convertSubstantivesFrom (index : Nat) :
    List (List (String × String)) → List (List (String × String))
  | [] => []
  | row :: rows => convertSubstantiveRow row index :: convertSubstantivesFrom (index + 1) rows

/-- `convertedSubstantives` from the convert script. -/
def convertedSubstantives (rows : List (List (String × String))) :
    List (List (String × String)) :=
  convertSubstantivesFrom 0 rows

/-- One element of `convertedIndeclinables`. -/
def convertIndeclinableRow (row : List (String × String)) (index : Nat) :
    List (String × String) :=
  [("word_type", "indeclinable"),
   ("word_devanagari", cleanText (jsGet row "अव्यय")),
   ("grammatical_case", cleanText (jsGet row "विभक्ति")),
   ("meaning_pt", cleanText (jsGet row "Portugues")),
   ("meaning_es", cleanText (jsGet row "Español")),
   ("meaning_en", cleanText (jsGet row "Inglés")),
   ("itrans", cleanText (jsGet row "ITRANS")),
   ("iast", cleanText (jsGet row "IATS")),
   ("harvard_kyoto", cleanText (jsGet row "Harvard-Kyoto")),
   ("is_published", "true"),
   ("order_index", toString (index + 1))]

/-- `indeclinablesRows.map((row, index) => ...)` with the index explicit. -/
def convertIndeclinablesFrom (index : Nat) :
    List (List (String × String)) → List (List (String × String))
  | [] => []
  | row :: rows => convertIndeclinableRow row index :: convertIndeclinablesFrom (index + 1) rows

/-- `convertedIndeclinables` from the convert script. -/
def convertedIndeclinables (rows : List (List (String × String))) :
    List (List (String × String)) :=
  convertIndeclinablesFrom 0 rows

end Convert

namespace Migration

/-- `cleanText` from the import migration: the sentinel is `undefined`,
modelled as `none`. -/
def cleanText (text : Option String) : Option String :=
  match text with
  | none => none
  | some t =>
    if t = "" ∨ t = "—" ∨ t = "-" ∨ jsTrim t = "" then none else some (jsTrim t)

/-- `mapVoice` from the import migration (sentinel `undefined`). -/
def mapVoice (pada : Option String) : Option String :=
  match pada with
  | none => none
  | some p =>
    let padaUpper := jsToUpperCase p
    if padaUpper = "P" then some "parasmaipada"
    else if padaUpper = "A" then some "atmanepada"
    else if padaUpper = "U" then some "ubhayapada"
    else none

/-- `mapGender` from the import migration (sentinel `undefined`). -/
def mapGender (linga : Option String) : Option String :=
  if linga = some "m" then some "masculine"
  else if linga = some "f" then some "feminine"
  else if linga = some "n" then some "neuter"
  else none

/-- `determineSubtype` from the import migration (sentinel `undefined`). -/
def determineSubtype (linga : Option String) : Option String :=
  if linga = some "a" then some "adjective"
  else if linga = some "p" then some "pronoun"
  else if linga = some "m" ∨ linga = some "f" ∨ linga = some "n" then some "noun"
  else none

/-- The character loop of `parseLine` inside the import migration's
`parseCSV` (a verbatim copy of the convert script's). -/
def parseLineAux : List Char → List Char → Bool → List String
  | [], cur, _ => [jsTrim ⟨cur⟩]
  | '"' :: '"' :: rest, cur, true => parseLineAux rest (cur ++ ['"']) true
  | '"' :: rest, cur, true => parseLineAux rest cur false
  | '"' :: rest, cur, false => parseLineAux rest cur true
  | ',' :: rest, cur, true => parseLineAux rest (cur ++ [',']) true
  | ',' :: rest, cur, false => jsTrim ⟨cur⟩ :: parseLineAux rest [] false
  | c :: rest, cur, inQ => parseLineAux rest (cur ++ [c]) inQ

/-- `parseLine` from the import migration. -/
def parseLine (line : String) : List String := parseLineAux line.data [] false

/-- Positional header-to-value assignment, copy in the import migration. -/
def buildRow : List String → List String → List (String × String)
  | [], _ => []
  | h :: hs, [] => (h, "") :: buildRow hs []
  | h :: hs, v :: vs => (h, v) :: buildRow hs vs

/-- `parseCSV` from the import migration (a verbatim copy of the convert
script's). -/
def parseCSV (content : String) : List (List (String × String)) :=
  let lines := ((splitSep '\n' content.data).map (fun cs => (⟨cs⟩ : String))).filter
    (fun line => !(jsTrim line == ""))
  match lines with
  | [] => []
  | headerLine :: rowLines =>
    let headers := parseLine headerLine
    (rowLines.map parseLine).filterMap
      (fun values =>
        if values.any (fun v => !(v == "") && !(jsTrim v == "")) then
          some (buildRow headers values)
        else none)

/-- `cleanText` lifted to a `data`-object value (`undefined` or string). -/
def cleanVal (text : Option String) : JsVal :=
  match cleanText text with
  | none => JsVal.undef
  | some s => JsVal.str s

/-- A raw row value placed in a `data` object (`row.field` with no
cleaning). -/
def rawVal (text : Option String) : JsVal :=
  match text with
  | none => JsVal.undef
  | some s => JsVal.str s

/-- `row.field ? parseInt(row.field) : undefined`. -/
def intVal (text : Option String) : JsVal :=
  match text with
  | none => JsVal.undef
  | some s =>
    if s = "" then JsVal.undef
    else
      match jsParseInt s with
      | some n => JsVal.num n
      | none => JsVal.nan

/-- `row.is_published === 'true'`. -/
def publishedVal (text : Option String) : JsVal :=
  JsVal.bool (text = some "true")

/-- The skip test of each import loop:
`!row.word_devanagari || row.word_devanagari.trim() === ''`. -/
def skipRow (row : List (String × String)) : Bool :=
  match jsGet row "word_devanagari" with
  | none => true
  | some s => s == "" || jsTrim s == ""

/-- The `data` object passed to `create` for one row of the verbs file. -/
def verbData (row : List (String × String)) : List (String × JsVal) :=
  [("word_type", rawVal (jsGet row "word_type")),
   ("word_devanagari", rawVal (jsGet row "word_devanagari")),
   ("root_devanagari", cleanVal (jsGet row "root_devanagari")),
   ("verb_class", intVal (jsGet row "verb_class")),
   ("voice", cleanVal (jsGet row "voice")),
   ("standard_form", cleanVal (jsGet row "standard_form")),
   ("meaning_pt", cleanVal (jsGet row "meaning_pt")),
   ("meaning_es", cleanVal (jsGet row "meaning_es")),
   ("meaning_en", cleanVal (jsGet row "meaning_en")),
   ("past_imperfect", cleanVal (jsGet row "past_imperfect")),
   ("potential", cleanVal (jsGet row "potential")),
   ("imperative", cleanVal (jsGet row "imperative")),
   ("past_participle", cleanVal (jsGet row "past_participle")),
   ("gerund", cleanVal (jsGet row "gerund")),
   ("infinitive", cleanVal (jsGet row "infinitive")),
   ("ppp", cleanVal (jsGet row "ppp")),
   ("itrans", cleanVal (jsGet row "itrans")),
   ("iast", cleanVal (jsGet row "iast")),
   ("harvard_kyoto", cleanVal (jsGet row "harvard_kyoto")),
   ("is_published", publishedVal (jsGet row "is_published")),
   ("order_index", intVal (jsGet row "order_index"))]

/-- The `data` object for one row of the substantives file. -/
def substantiveData (row : List (String × String)) : List (String × JsVal) :=
  [("word_type", rawVal (jsGet row "word_type")),
   ("word_subtype", cleanVal (jsGet row "word_subtype")),
   ("word_devanagari", rawVal (jsGet row "word_devanagari")),
   ("gender", cleanVal (jsGet row "gender")),
   ("meaning_pt", cleanVal (jsGet row "meaning_pt")),
   ("meaning_es", cleanVal (jsGet row "meaning_es")),
   ("meaning_en", cleanVal (jsGet row "meaning_en")),
   ("itrans", cleanVal (jsGet row "itrans")),
   ("iast", cleanVal (jsGet row "iast")),
   ("harvard_kyoto", cleanVal (jsGet row "harvard_kyoto")),
   ("is_published", publishedVal (jsGet row "is_published")),
   ("order_index", intVal (jsGet row "order_index"))]

/-- The `data` object for one row of the indeclinables file. -/
def indeclinableData (row : List (String × String)) : List (String × JsVal) :=
  [("word_type", rawVal (jsGet row "word_type")),
   ("word_devanagari", rawVal (jsGet row "word_devanagari")),
   ("grammatical_case", cleanVal (jsGet row "grammatical_case")),
   ("meaning_pt", cleanVal (jsGet row "meaning_pt")),
   ("meaning_es", cleanVal (jsGet row "meaning_es")),
   ("meaning_en", cleanVal (jsGet row "meaning_en")),
   ("itrans", cleanVal (jsGet row "itrans")),
   ("iast", cleanVal (jsGet row "iast")),
   ("harvard_kyoto", cleanVal (jsGet row "harvard_kyoto")),
   ("is_published", publishedVal (jsGet row "is_published")),
   ("order_index", intVal (jsGet row "order_index"))]

/-- One file's insertion loop: walk the parsed rows, skip rows with a
blank `word_devanagari`, call `create` for the rest.  `fail n` says
whether the `n`-th `create` call of the whole run throws (modelling a
datastore error); on a throw the loop's `catch` logs and rethrows, so the
error propagates.  Returns the next call-counter value and the records
created by this loop. -/
def importLoop (fail : Nat → Bool)
    (dataOf : List (String × String) → List (String × JsVal)) :
    Nat → List (List (String × String)) → Except Unit (Nat × List (List (String × JsVal)))
  | n, [] => Except.ok (n, [])
  | n, row :: rows =>
    if skipRow row then importLoop fail dataOf n rows
    else if fail n then Except.error ()
    else
      match importLoop fail dataOf (n + 1) rows with
      | Except.ok (m, ds) => Except.ok (m, dataOf row :: ds)
      | Except.error e => Except.error e

/-- The body of the migration's single transaction: the three file loops
run in sequence on the parsed contents of the three converted CSV files;
any thrown `create` error propagates out of the body. -/
def upBody (fail : Nat → Bool) (verbsCsv substantivesCsv indeclinablesCsv : String) :
    Except Unit (List (List (String × JsVal))) :=
  match importLoop fail verbData 0 (parseCSV verbsCsv) with
  | Except.error e => Except.error e
  | Except.ok (n1, d1) =>
    match importLoop fail substantiveData n1 (parseCSV substantivesCsv) with
    | Except.error e => Except.error e
    | Except.ok (n2, d2) =>
      match importLoop fail indeclinableData n2 (parseCSV indeclinablesCsv) with
      | Except.error e => Except.error e
      | Except.ok (_, d3) => Except.ok (d1 ++ d2 ++ d3)

/-- Modelled from the spec: the datastore collaborator's transaction
scoping is not in the repository (it is the hosting framework); the spec
states "transaction scoping with automatic rollback on thrown error", so a
successful body appends its created records to the store and a thrown
error leaves the store exactly as it was. -/
def up (fail : Nat → Bool) (db : List (List (String × JsVal)))
    (verbsCsv substantivesCsv indeclinablesCsv : String) :
    List (List (String × JsVal)) :=
  match upBody fail verbsCsv substantivesCsv indeclinablesCsv with
  | Except.ok ds => db ++ ds
  | Except.error _ => db

/-- Modelled from the spec: the `findMany` collaborator with `limit: -1`
returns every record of the collection. -/
def findMany (db : List (List (String × JsVal))) : List (List (String × JsVal)) := db

/-- The records inserted by one file loop on a run where no `create`
throws. -/
def insertedRows (dataOf : List (String × String) → List (String × JsVal))
    (rows : List (List (String × String))) : List (List (String × JsVal)) :=
  match importLoop (fun _ => false) dataOf 0 rows with
  | Except.ok (_, ds) => ds
  | Except.error _ => []

end Migration

/-! ## Helper lemmas -/

theorem toUpper_eq_cases (c : Char) :
    (Char.toUpper c = 'P' → c = 'p' ∨ c = 'P') ∧
    (Char.toUpper c = 'A' → c = 'a' ∨ c = 'A') ∧
    (Char.toUpper c = 'U' → c = 'u' ∨ c = 'U') := by
  by_cases hc : c.toNat ≥ 97 ∧ c.toNat ≤ 122
  · have hcn : c = Char.ofNat c.toNat := (Char.ofNat_toNat c).symm
    obtain ⟨h1, h2⟩ := hc
    interval_cases hn : c.toNat <;> (rw [hcn]; decide)
  · refine ⟨fun h => Or.inr ?_, fun h => Or.inr ?_, fun h => Or.inr ?_⟩ <;>
      simpa [Char.toUpper, hc] using h

theorem jsToUpperCase_cases (s : String) :
    (jsToUpperCase s = "P" → s = "p" ∨ s = "P") ∧
    (jsToUpperCase s = "A" → s = "a" ∨ s = "A") ∧
    (jsToUpperCase s = "U" → s = "u" ∨ s = "U") := by
  obtain ⟨cs⟩ := s
  match cs with
  | [] =>
    refine ⟨fun h => ?_, fun h => ?_, fun h => ?_⟩ <;>
      simpa [jsToUpperCase, String.ext_iff] using h
  | c :: c2 :: t =>
    refine ⟨fun h => ?_, fun h => ?_, fun h => ?_⟩ <;>
      simpa [jsToUpperCase, String.ext_iff] using h
  | [c] =>
    have hc := toUpper_eq_cases c
    refine ⟨fun h => ?_, fun h => ?_, fun h => ?_⟩
    · rcases hc.1 (by simpa [jsToUpperCase, String.ext_iff] using h) with rfl | rfl
      · exact Or.inl rfl
      · exact Or.inr rfl
    · rcases hc.2.1 (by simpa [jsToUpperCase, String.ext_iff] using h) with rfl | rfl
      · exact Or.inl rfl
      · exact Or.inr rfl
    · rcases hc.2.2 (by simpa [jsToUpperCase, String.ext_iff] using h) with rfl | rfl
      · exact Or.inl rfl
      · exact Or.inr rfl

theorem parseLineAux_cons_other (c : Char) (rest cur : List Char) (inQ : Bool)
    (h1 : c ≠ '"') (h2 : c ≠ ',') :
    Convert.parseLineAux (c :: rest) cur inQ =
      Convert.parseLineAux rest (cur ++ [c]) inQ := by
  simp [Convert.parseLineAux, h1, h2]

theorem parseLineAux_cons_inQ (c : Char) (rest cur : List Char) (h1 : c ≠ '"') :
    Convert.parseLineAux (c :: rest) cur true =
      Convert.parseLineAux rest (cur ++ [c]) true := by
  rcases eq_or_ne c ',' with rfl | h2
  · rfl
  · exact parseLineAux_cons_other c rest cur true h1 h2

theorem parseLineAux_copies_eq : ∀ cs cur inQ,
    Convert.parseLineAux cs cur inQ = Migration.parseLineAux cs cur inQ := by
  intro cs cur inQ
  induction cs, cur, inQ using Convert.parseLineAux.induct <;>
    simp [Convert.parseLineAux, Migration.parseLineAux, *]

theorem buildRow_copies_eq : ∀ hs vs, Convert.buildRow hs vs = Migration.buildRow hs vs := by
  intro hs
  induction hs with
  | nil => intro vs; rfl
  | cons h t ih =>
    intro vs
    cases vs <;> simp [Convert.buildRow, Migration.buildRow, ih]

/-! ## Claim theorems -/

/-- C7: the two copies of the CSV parser — `parseCSV` in the import
migration and `parseCSV` in the convert script — compute the same
function: for every input string they return equal lists of records. -/
theorem parseCSV_copies_equal : ∀ content, Convert.parseCSV content = Migration.parseCSV content := by
  intro content
  have hline : Convert.parseLine = Migration.parseLine :=
    funext fun l => parseLineAux_copies_eq l.data [] false
  have hbr : Convert.buildRow = Migration.buildRow :=
    funext fun hs => funext fun vs => buildRow_copies_eq hs vs
  simp only [Convert.parseCSV, Migration.parseCSV, hline, hbr]

/-- C6: in the field-splitting loop, a doubled double-quote while inside
quotes emits one literal double-quote and advances past both characters;
in particular the quoted field `He said ""hi""` parses to the literal
value `He said "hi"`. -/
theorem escaped_quote_spec :
    (∀ rest cur, Convert.parseLineAux ('"' :: '"' :: rest) cur true =
      Convert.parseLineAux rest (cur ++ ['"']) true) ∧
    Convert.parseLine "\"He said \"\"hi\"\"\"" = ["He said \"hi\""] :=
  ⟨fun _ _ => rfl, by decide⟩

/-- C5: `parseCSV` is total by construction, and on a line with an
unmatched opening quote the scanner treats every remaining character of
the line (commas included) as content of the current field: with the
`inQuotes` flag set and no further quote character, the rest of the line
is appended to the current buffer and emitted as the final field. -/
theorem parse_unterminated_quote :
    (∀ cs cur, '"' ∉ cs →
      Convert.parseLineAux cs cur true = [jsTrim ⟨cur ++ cs⟩]) ∧
    Convert.parseLine "a,\"b,c" = ["a", "b,c"] := by
  constructor
  · intro cs
    induction cs with
    | nil => intro cur h; simp [Convert.parseLineAux]
    | cons c rest ih =>
      intro cur h
      have hc : c ≠ '"' := fun he => h (he ▸ List.mem_cons_self c rest)
      have hr : '"' ∉ rest := fun hm => h (List.mem_cons_of_mem c hm)
      rw [parseLineAux_cons_inQ c rest cur hc, ih (cur ++ [c]) hr,
        List.append_assoc, List.singleton_append]
  · decide

theorem parse_unterminated_quote_witness :
    Convert.parseLineAux ("b,c".data) [] true = [jsTrim ⟨[] ++ "b,c".data⟩] :=
  parse_unterminated_quote.1 "b,c".data [] (by decide)

/-- C8: `cleanText` returns the empty sentinel exactly when its input is
absent, one of the placeholder dashes `—` or `-`, or blank after
trimming, and otherwise returns the input trimmed — in both copies (the
convert script's sentinel is `""`, the migration's is `undefined`);
including the concrete sentinel examples from the spec. -/
theorem cleanText_spec :
    (∀ o : Option String, Convert.cleanText o = "" ↔
      o = none ∨ o = some "—" ∨ o = some "-" ∨ ∃ s, o = some s ∧ jsTrim s = "") ∧
    (∀ s : String, s ≠ "—" → s ≠ "-" → jsTrim s ≠ "" →
      Convert.cleanText (some s) = jsTrim s) ∧
    (∀ o : Option String, Migration.cleanText o = none ↔
      o = none ∨ o = some "—" ∨ o = some "-" ∨ ∃ s, o = some s ∧ jsTrim s = "") ∧
    (∀ s : String, s ≠ "—" → s ≠ "-" → jsTrim s ≠ "" →
      Migration.cleanText (some s) = some (jsTrim s)) ∧
    Convert.cleanText (some "—") = "" ∧ Convert.cleanText (some "") = "" ∧
    Convert.cleanText (some "   ") = "" ∧ Convert.cleanText none = "" ∧
    Convert.cleanText (some " ram ") = "ram" := by
  have hiff : ∀ t : String, (t = "" ∨ t = "—" ∨ t = "-" ∨ jsTrim t = "") ↔
      (t = "—" ∨ t = "-" ∨ jsTrim t = "") := by
    intro t
    constructor
    · rintro (rfl | h) <;> [exact Or.inr (Or.inr (by decide)); exact h]
    · exact Or.inr
  refine ⟨?_, ?_, ?_, ?_, by decide, by decide, by decide, by decide, by decide⟩
  · intro o
    cases o with
    | none => simp [Convert.cleanText]
    | some t =>
      simp only [Convert.cleanText, reduceCtorEq, Option.some.injEq, false_or]
      by_cases hcond : t = "" ∨ t = "—" ∨ t = "-" ∨ jsTrim t = ""
      · rw [if_pos hcond]
        simp only [true_iff]
        rcases (hiff t).mp hcond with h | h | h
        · exact Or.inl h
        · exact Or.inr (Or.inl h)
        · exact Or.inr (Or.inr ⟨t, rfl, h⟩)
      · rw [if_neg hcond]
        push_neg at hcond
        obtain ⟨h1, h2, h3, h4⟩ := hcond
        constructor
        · intro h; exact absurd h h4
        · rintro (h | h | ⟨s, hs, htr⟩)
          · exact absurd h h2
          · exact absurd h h3
          · cases hs; exact absurd htr h4
  · intro s h1 h2 h3
    have h0 : s ≠ "" := fun he => h3 (by rw [he]; decide)
    simp [Convert.cleanText, h0, h1, h2, h3]
  · intro o
    cases o with
    | none => simp [Migration.cleanText]
    | some t =>
      simp only [Migration.cleanText, reduceCtorEq, Option.some.injEq, false_or]
      by_cases hcond : t = "" ∨ t = "—" ∨ t = "-" ∨ jsTrim t = ""
      · rw [if_pos hcond]
        simp only [true_iff]
        rcases (hiff t).mp hcond with h | h | h
        · exact Or.inl h
        · exact Or.inr (Or.inl h)
        · exact Or.inr (Or.inr ⟨t, rfl, h⟩)
      · rw [if_neg hcond]
        push_neg at hcond
        obtain ⟨h1, h2, h3, h4⟩ := hcond
        constructor
        · intro h; exact absurd h (by simp)
        · rintro (h | h | ⟨s, hs, htr⟩)
          · exact absurd h h2
          · exact absurd h h3
          · cases hs; exact absurd htr h4
  · intro s h1 h2 h3
    have h0 : s ≠ "" := fun he => h3 (by rw [he]; decide)
    simp [Migration.cleanText, h0, h1, h2, h3]

theorem cleanText_spec_witness :
    Convert.cleanText (some " abc ") = jsTrim " abc " ∧
    Migration.cleanText (some " abc ") = some (jsTrim " abc ") :=
  ⟨cleanText_spec.2.1 " abc " (by decide) (by decide) (by decide),
   cleanText_spec.2.2.2.1 " abc " (by decide) (by decide) (by decide)⟩

/-- C9: `mapVoice` matches case-insensitively — `P`/`p` map to
parasmaipada, `A`/`a` to atmanepada, `U`/`u` to ubhayapada — and every
other input, the absent one included, yields the empty sentinel in both
copies (the function is total, it cannot throw). -/
theorem mapVoice_spec :
    Convert.mapVoice (some "P") = "parasmaipada" ∧ Convert.mapVoice (some "p") = "parasmaipada" ∧
    Convert.mapVoice (some "A") = "atmanepada" ∧ Convert.mapVoice (some "a") = "atmanepada" ∧
    Convert.mapVoice (some "U") = "ubhayapada" ∧ Convert.mapVoice (some "u") = "ubhayapada" ∧
    Convert.mapVoice none = "" ∧ Migration.mapVoice none = none ∧
    (∀ s : String, s ∉ ["P", "p", "A", "a", "U", "u"] → Convert.mapVoice (some s) = "") ∧
    (∀ s : String, s ∉ ["P", "p", "A", "a", "U", "u"] → Migration.mapVoice (some s) = none) := by
  have hNotUp : ∀ s : String, s ∉ ["P", "p", "A", "a", "U", "u"] →
      jsToUpperCase s ≠ "P" ∧ jsToUpperCase s ≠ "A" ∧ jsToUpperCase s ≠ "U" := by
    intro s h
    simp only [List.mem_cons, List.not_mem_nil, or_false, not_or] at h
    obtain ⟨hP, hp, hA, ha, hU, hu⟩ := h
    refine ⟨fun hc => ?_, fun hc => ?_, fun hc => ?_⟩
    · rcases (jsToUpperCase_cases s).1 hc with rfl | rfl <;> simp_all
    · rcases (jsToUpperCase_cases s).2.1 hc with rfl | rfl <;> simp_all
    · rcases (jsToUpperCase_cases s).2.2 hc with rfl | rfl <;> simp_all
  refine ⟨by decide, by decide, by decide, by decide, by decide, by decide, rfl, rfl, ?_, ?_⟩
  · intro s h
    obtain ⟨h1, h2, h3⟩ := hNotUp s h
    simp [Convert.mapVoice, h1, h2, h3]
  · intro s h
    obtain ⟨h1, h2, h3⟩ := hNotUp s h
    simp [Migration.mapVoice, h1, h2, h3]

theorem mapVoice_spec_witness :
    Convert.mapVoice (some "x") = "" ∧ Migration.mapVoice (some "x") = none :=
  ⟨mapVoice_spec.2.2.2.2.2.2.2.2.1 "x" (by decide),
   mapVoice_spec.2.2.2.2.2.2.2.2.2 "x" (by decide)⟩

theorem convertSubstantivesFrom_shape :
    ∀ (rows : List (List (String × String))) (k i : Nat) (rec : List (String × String)),
      (Convert.convertSubstantivesFrom k rows)[i]? = some rec →
      ∃ row, rec = Convert.convertSubstantiveRow row (k + i) := by
  intro rows
  induction rows with
  | nil => intro k i rec h; simp [Convert.convertSubstantivesFrom] at h
  | cons r rs ih =>
    intro k i rec h
    cases i with
    | zero =>
      simp only [Convert.convertSubstantivesFrom, List.getElem?_cons_zero,
        Option.some.injEq] at h
      refine ⟨r, ?_⟩
      rw [← h, Nat.add_zero]
    | succ i =>
      simp only [Convert.convertSubstantivesFrom, List.getElem?_cons_succ] at h
      obtain ⟨row, hr⟩ := ih (k + 1) i rec h
      refine ⟨row, ?_⟩
      rw [hr, show k + 1 + i = k + (i + 1) from by omega]

/-- C10: whenever `mapGender` yields a non-empty value, `determineSubtype`
on the same input yields `noun`; consequently every converted substantive
record with a non-empty `gender` field has `word_subtype` `noun`. -/
theorem gender_subtype_noun :
    (∀ x : Option String, Convert.mapGender x ≠ "" → Convert.determineSubtype x = "noun") ∧
    (∀ (rows : List (List (String × String))) (i : Nat) (rec : List (String × String)),
      (Convert.convertedSubstantives rows)[i]? = some rec →
      jsGet rec "gender" ≠ some "" → jsGet rec "word_subtype" = some "noun") := by
  have h1 : ∀ x : Option String, Convert.mapGender x ≠ "" →
      Convert.determineSubtype x = "noun" := by
    intro x h
    by_cases hm : x = some "m"
    · subst hm; rfl
    by_cases hf : x = some "f"
    · subst hf; rfl
    by_cases hn : x = some "n"
    · subst hn; rfl
    simp [Convert.mapGender, hm, hf, hn] at h
  refine ⟨h1, ?_⟩
  intro rows i rec h hg
  obtain ⟨row, rfl⟩ := convertSubstantivesFrom_shape rows 0 i rec h
  have hgen : jsGet (Convert.convertSubstantiveRow row (0 + i)) "gender" =
      some (Convert.mapGender (jsGet row "लिङ्ग")) := rfl
  have hsub : jsGet (Convert.convertSubstantiveRow row (0 + i)) "word_subtype" =
      some (Convert.determineSubtype (jsGet row "लिङ्ग")) := rfl
  rw [hgen] at hg
  rw [hsub, h1 (jsGet row "लिङ्ग") (by simpa using hg)]

theorem gender_subtype_noun_witness :
    Convert.determineSubtype (some "m") = "noun" ∧
    jsGet (Convert.convertSubstantiveRow [("लिङ्ग", "f")] 0) "word_subtype" = some "noun" :=
  ⟨gender_subtype_noun.1 (some "m") (by decide),
   gender_subtype_noun.2 [[("लिङ्ग", "f")]] 0
     (Convert.convertSubstantiveRow [("लिङ्ग", "f")] 0) (by decide) (by decide)⟩

/-- C3: the import run is all-or-nothing — the three file loops run inside
one transaction, so if any `create` call throws at any point of any loop,
the datastore after the run holds exactly what it held before (zero
records from that run, earlier successful insertions of the run
included). -/
theorem import_transaction_atomic (fail : Nat → Bool)
    (db : List (List (String × JsVal))) (verbsCsv substantivesCsv indeclinablesCsv : String)
    (h : Migration.upBody fail verbsCsv substantivesCsv indeclinablesCsv = Except.error ()) :
    Migration.findMany (Migration.up fail db verbsCsv substantivesCsv indeclinablesCsv) =
      Migration.findMany db := by
  simp [Migration.up, Migration.findMany, h]

theorem importLoop_noFail (dataOf : List (String × String) → List (String × JsVal)) :
    ∀ (rows : List (List (String × String))) (n : Nat),
      Migration.importLoop (fun _ => false) dataOf n rows =
        Except.ok (n + (rows.filter (fun r => !Migration.skipRow r)).length,
          (rows.filter (fun r => !Migration.skipRow r)).map dataOf) := by
  intro rows
  induction rows with
  | nil => intro n; simp [Migration.importLoop]
  | cons r rs ih =>
    intro n
    by_cases hs : Migration.skipRow r
    · simp [Migration.importLoop, hs, ih]
    · simp only [Migration.importLoop, hs, Bool.false_eq_true, if_false, ih,
        List.filter_cons, Bool.not_eq_true', if_true, Bool.not_false, if_pos]
      simp only [List.length_cons, List.map_cons]
      refine congrArg Except.ok (Prod.ext ?_ rfl)
      omega

theorem convertVerbsFrom_shape :
    ∀ (rows : List (List (String × String))) (k i : Nat) (rec : List (String × String)),
      (Convert.convertVerbsFrom k rows)[i]? = some rec →
      ∃ row, rec = Convert.convertVerbRow row (k + i) := by
  intro rows
  induction rows with
  | nil => intro k i rec h; simp [Convert.convertVerbsFrom] at h
  | cons r rs ih =>
    intro k i rec h
    cases i with
    | zero =>
      simp only [Convert.convertVerbsFrom, List.getElem?_cons_zero, Option.some.injEq] at h
      refine ⟨r, ?_⟩
      rw [← h, Nat.add_zero]
    | succ i =>
      simp only [Convert.convertVerbsFrom, List.getElem?_cons_succ] at h
      obtain ⟨row, hr⟩ := ih (k + 1) i rec h
      refine ⟨row, ?_⟩
      rw [hr, show k + 1 + i = k + (i + 1) from by omega]

theorem convertIndeclinablesFrom_shape :
    ∀ (rows : List (List (String × String))) (k i : Nat) (rec : List (String × String)),
      (Convert.convertIndeclinablesFrom k rows)[i]? = some rec →
      ∃ row, rec = Convert.convertIndeclinableRow row (k + i) := by
  intro rows
  induction rows with
  | nil => intro k i rec h; simp [Convert.convertIndeclinablesFrom] at h
  | cons r rs ih =>
    intro k i rec h
    cases i with
    | zero =>
      simp only [Convert.convertIndeclinablesFrom, List.getElem?_cons_zero,
        Option.some.injEq] at h
      refine ⟨r, ?_⟩
      rw [← h, Nat.add_zero]
    | succ i =>
      simp only [Convert.convertIndeclinablesFrom, List.getElem?_cons_succ] at h
      obtain ⟨row, hr⟩ := ih (k + 1) i rec h
      refine ⟨row, ?_⟩
      rw [hr, show k + 1 + i = k + (i + 1) from by omega]

theorem convertVerbsFrom_length :
    ∀ (rows : List (List (String × String))) (k : Nat),
      (Convert.convertVerbsFrom k rows).length = rows.length := by
  intro rows
  induction rows with
  | nil => intro k; rfl
  | cons r rs ih => intro k; simp [Convert.convertVerbsFrom, ih]

theorem convertSubstantivesFrom_length :
    ∀ (rows : List (List (String × String))) (k : Nat),
      (Convert.convertSubstantivesFrom k rows).length = rows.length := by
  intro rows
  induction rows with
  | nil => intro k; rfl
  | cons r rs ih => intro k; simp [Convert.convertSubstantivesFrom, ih]

theorem convertIndeclinablesFrom_length :
    ∀ (rows : List (List (String × String))) (k : Nat),
      (Convert.convertIndeclinablesFrom k rows).length = rows.length := by
  intro rows
  induction rows with
  | nil => intro k; rfl
  | cons r rs ih => intro k; simp [Convert.convertIndeclinablesFrom, ih]

set_option maxRecDepth 100000 in
/-- C2 counterexample: on a verbs file whose second row has `धातु` = `—`
(so `word_devanagari` cleans to the empty string), the convert pass still
emits that entry — it is the second converted record, with an empty
`word_devanagari` field, and the emitted normalized CSV has three lines
(header plus both rows) — contradicting the claim that such an entry is
not emitted as a row of the normalized CSV. -/
theorem empty_devanagari_convert_emits :
    jsGet ((Convert.convertedVerbs
        (Convert.parseCSV "धातु,Inglés\nगम्,go\n—,walk")).getD 1 [])
      "word_devanagari" = some "" ∧
    (splitSep '\n' (Convert.arrayToCSV
        (Convert.convertedVerbs (Convert.parseCSV "धातु,Inglés\nगम्,go\n—,walk"))
        Convert.verbsHeaders).data).length = 3 := ⟨rfl, rfl⟩

/-- C2 (amended): a source row whose `word_devanagari` is empty after
trimming is discarded by the import pass — every record handed to
`create` comes from a row that passed the skip test, i.e. whose
`word_devanagari` is present and non-blank after trimming — but the
convert pass does not discard it: it emits exactly one normalized CSV row
per parsed row, empty-`word_devanagari` rows included. -/
theorem empty_devanagari_import_skip :
    (∀ (dataOf : List (String × String) → List (String × JsVal))
       (rows : List (List (String × String))) (d : List (String × JsVal)),
       d ∈ Migration.insertedRows dataOf rows →
       ∃ row, row ∈ rows ∧ Migration.skipRow row = false ∧ d = dataOf row) ∧
    (∀ row : List (String × String), Migration.skipRow row = false ↔
       ∃ s, jsGet row "word_devanagari" = some s ∧ jsTrim s ≠ "") ∧
    (∀ rows : List (List (String × String)),
       (Convert.convertedVerbs rows).length = rows.length) ∧
    (∀ rows : List (List (String × String)),
       (Convert.convertedSubstantives rows).length = rows.length) ∧
    (∀ rows : List (List (String × String)),
       (Convert.convertedIndeclinables rows).length = rows.length) := by
  refine ⟨?_, ?_, fun rows => convertVerbsFrom_length rows 0,
    fun rows => convertSubstantivesFrom_length rows 0,
    fun rows => convertIndeclinablesFrom_length rows 0⟩
  · intro dataOf rows d hd
    rw [Migration.insertedRows, importLoop_noFail dataOf rows 0] at hd
    simp only [List.mem_map] at hd
    obtain ⟨row, hrow, rfl⟩ := hd
    have hm := List.mem_filter.mp hrow
    exact ⟨row, hm.1, by simpa using hm.2, rfl⟩
  · intro row
    cases h : jsGet row "word_devanagari" with
    | none => simp [Migration.skipRow, h]
    | some s =>
      simp only [Migration.skipRow, h, Bool.or_eq_false_iff, beq_eq_false_iff_ne, ne_eq,
        Option.some.injEq]
      constructor
      · rintro ⟨h1, h2⟩; exact ⟨s, rfl, h2⟩
      · rintro ⟨s', rfl, h2⟩
        exact ⟨fun he => h2 (by rw [he]; decide), h2⟩

theorem empty_devanagari_import_skip_witness :
    (∃ row, row ∈ [[("word_devanagari", "क")]] ∧ Migration.skipRow row = false ∧
      Migration.verbData [("word_devanagari", "क")] = Migration.verbData row) ∧
    (Convert.convertedVerbs [[("धातु", "—")]]).length = 1 :=
  ⟨empty_devanagari_import_skip.1 Migration.verbData [[("word_devanagari", "क")]]
      (Migration.verbData [("word_devanagari", "क")]) (by decide),
   empty_devanagari_import_skip.2.2.1 [[("धातु", "—")]]⟩

set_option maxRecDepth 200000 in
/-- C4: in every converted file the emitted record at 0-based position `i`
carries `order_index` equal to the 1-based pre-filter position `i + 1`
among all parser-returned rows (rows later dropped by the import pass for
an empty `word_devanagari` included); consequently the persisted
`order_index` sequence can have gaps, as on the concrete three-row verbs
file whose middle row has a dash headword: the records the import pass
inserts carry `order_index` values 1 and 3. -/
theorem order_index_prefilter :
    (∀ (rows : List (List (String × String))) (i : Nat) (rec : List (String × String)),
       (Convert.convertedVerbs rows)[i]? = some rec →
       jsGet rec "order_index" = some (toString (i + 1))) ∧
    (∀ (rows : List (List (String × String))) (i : Nat) (rec : List (String × String)),
       (Convert.convertedSubstantives rows)[i]? = some rec →
       jsGet rec "order_index" = some (toString (i + 1))) ∧
    (∀ (rows : List (List (String × String))) (i : Nat) (rec : List (String × String)),
       (Convert.convertedIndeclinables rows)[i]? = some rec →
       jsGet rec "order_index" = some (toString (i + 1))) ∧
    ((Migration.insertedRows Migration.verbData
        (Migration.parseCSV (Convert.arrayToCSV
          (Convert.convertedVerbs (Convert.parseCSV "धातु\nगम्\n—\nपठ्"))
          Convert.verbsHeaders))).map (fun d => List.lookup "order_index" d) =
      [some (JsVal.num 1), some (JsVal.num 3)]) := by
  refine ⟨?_, ?_, ?_, rfl⟩
  · intro rows i rec h
    obtain ⟨row, rfl⟩ := convertVerbsFrom_shape rows 0 i rec h
    rw [Nat.zero_add]
    rfl
  · intro rows i rec h
    obtain ⟨row, rfl⟩ := convertSubstantivesFrom_shape rows 0 i rec h
    rw [Nat.zero_add]
    rfl
  · intro rows i rec h
    obtain ⟨row, rfl⟩ := convertIndeclinablesFrom_shape rows 0 i rec h
    rw [Nat.zero_add]
    rfl

theorem order_index_prefilter_witness :
    jsGet (Convert.convertVerbRow [("धातु", "गम्")] 1) "order_index" =
      some (toString (1 + 1)) :=
  order_index_prefilter.1 [[("धातु", "पठ्")], [("धातु", "गम्")]] 1
    (Convert.convertVerbRow [("धातु", "गम्")] 1) (by decide)

theorem import_transaction_atomic_witness :
    Migration.upBody (fun n => n == 1) "word_devanagari\nक\nख\nग" "" "" = Except.error () ∧
    Migration.findMany
        (Migration.up (fun n => n == 1) [] "word_devanagari\nक\nख\nग" "" "") =
      Migration.findMany ([] : List (List (String × JsVal))) :=
  ⟨rfl, import_transaction_atomic (fun n => n == 1) [] _ _ _ rfl⟩

/-! ## Round-trip lemmas (claim C1) -/

theorem joinSep_cons_cons (sep : Char) (x y : List Char) (ys : List (List Char)) :
    joinSep sep (x :: y :: ys) = x ++ sep :: joinSep sep (y :: ys) := rfl

theorem joinSep_cons_ne_nil (sep : Char) (x : List Char) (ls : List (List Char))
    (h : ls ≠ []) : joinSep sep (x :: ls) = x ++ sep :: joinSep sep ls := by
  cases ls with
  | nil => exact absurd rfl h
  | cons y ys => exact joinSep_cons_cons sep x y ys

theorem splitSep_no_sep (sep : Char) : ∀ cs : List Char, sep ∉ cs → splitSep sep cs = [cs] := by
  intro cs
  induction cs with
  | nil => intro h; rfl
  | cons c rest ih =>
    intro h
    have hc : c ≠ sep := fun he => h (he ▸ List.mem_cons_self c rest)
    have hr : sep ∉ rest := fun hm => h (List.mem_cons_of_mem c hm)
    simp [splitSep, hc, ih hr]

theorem splitSep_append_sep (sep : Char) : ∀ (x rest : List Char), sep ∉ x →
    splitSep sep (x ++ sep :: rest) = x :: splitSep sep rest := by
  intro x
  induction x with
  | nil => intro rest h; simp [splitSep]
  | cons c x ih =>
    intro rest h
    have hc : c ≠ sep := fun he => h (he ▸ List.mem_cons_self c x)
    have hr : sep ∉ x := fun hm => h (List.mem_cons_of_mem c hm)
    rw [List.cons_append]
    simp only [splitSep, hc, if_false, ih rest hr]

theorem splitSep_joinSep (sep : Char) : ∀ ls : List (List Char), ls ≠ [] →
    (∀ l ∈ ls, sep ∉ l) → splitSep sep (joinSep sep ls) = ls := by
  intro ls
  induction ls with
  | nil => intro h; exact absurd rfl h
  | cons x ls ih =>
    intro _ h
    cases ls with
    | nil => exact splitSep_no_sep sep x (h x (List.mem_cons_self x []))
    | cons y ys =>
      rw [joinSep_cons_cons, splitSep_append_sep sep x _ (h x (List.mem_cons_self x _)),
        ih (by simp) (fun l hl => h l (List.mem_cons_of_mem x hl))]

theorem mem_joinSep (sep : Char) : ∀ (ls : List (List Char)) (c : Char),
    c ∈ joinSep sep ls → c = sep ∨ ∃ l ∈ ls, c ∈ l := by
  intro ls
  induction ls with
  | nil => intro c h; simp [joinSep] at h
  | cons x ls ih =>
    intro c h
    cases ls with
    | nil => exact Or.inr ⟨x, List.mem_cons_self x [], h⟩
    | cons y ys =>
      rw [joinSep_cons_cons] at h
      rcases List.mem_append.mp h with hx | hrest
      · exact Or.inr ⟨x, List.mem_cons_self x _, hx⟩
      · rcases List.mem_cons.mp hrest with rfl | hj
        · exact Or.inl rfl
        · rcases ih c hj with h1 | ⟨l, hl, hc⟩
          · exact Or.inl h1
          · exact Or.inr ⟨l, List.mem_cons_of_mem x hl, hc⟩

theorem mem_joinSep_of_mem (sep : Char) : ∀ (ls : List (List Char)) (l : List Char) (c : Char),
    l ∈ ls → c ∈ l → c ∈ joinSep sep ls := by
  intro ls
  induction ls with
  | nil => intro l c h; simp at h
  | cons x ls ih =>
    intro l c hl hc
    cases ls with
    | nil =>
      rcases List.mem_cons.mp hl with rfl | h0
      · exact hc
      · simp at h0
    | cons y ys =>
      rw [joinSep_cons_cons]
      rcases List.mem_cons.mp hl with rfl | h0
      · exact List.mem_append.mpr (Or.inl hc)
      · exact List.mem_append.mpr (Or.inr (List.mem_cons_of_mem sep (ih l c h0 hc)))

theorem trimChars_ne_nil (cs : List Char) (c : Char) (hc : c ∈ cs)
    (hw : ¬ c.isWhitespace) : trimChars cs ≠ [] := by
  intro he
  unfold trimChars at he
  rw [List.reverse_eq_nil_iff, List.dropWhile_eq_nil_iff] at he
  have hc1 : c ∈ cs.dropWhile Char.isWhitespace := by
    rcases List.mem_append.mp
        ((List.takeWhile_append_dropWhile Char.isWhitespace cs) ▸ hc) with h1 | h1
    · exact absurd (List.mem_takeWhile_imp h1) (by simpa using hw)
    · exact h1
  exact hw (by simpa using he c (by simpa using hc1))

theorem jsTrim_mk_ne_empty (cs : List Char) (c : Char) (hc : c ∈ cs)
    (hw : ¬ c.isWhitespace) : jsTrim ⟨cs⟩ ≠ "" := by
  intro he
  rw [jsTrim, String.ext_iff] at he
  exact trimChars_ne_nil cs c hc hw he

theorem parseLineAux_two_quotes (rest cur : List Char) :
    Convert.parseLineAux ('"' :: '"' :: rest) cur true =
      Convert.parseLineAux rest (cur ++ ['"']) true := rfl

theorem parseLineAux_open (rest cur : List Char) :
    Convert.parseLineAux ('"' :: rest) cur false =
      Convert.parseLineAux rest cur true := by
  cases rest with
  | nil => rfl
  | cons c t =>
    by_cases hc : c = '"'
    · subst hc; rfl
    · simp [Convert.parseLineAux, hc]

theorem parseLineAux_quote_comma (rest cur : List Char) :
    Convert.parseLineAux ('"' :: ',' :: rest) cur true =
      jsTrim ⟨cur⟩ :: Convert.parseLineAux rest [] false := rfl

theorem parseLineAux_quote_nil (cur : List Char) :
    Convert.parseLineAux ['"'] cur true = [jsTrim ⟨cur⟩] := rfl

theorem parseLineAux_escape : ∀ (v rest cur : List Char),
    Convert.parseLineAux (Convert.escapeChars v ++ '"' :: rest) cur true =
      Convert.parseLineAux ('"' :: rest) (cur ++ v) true := by
  intro v
  induction v with
  | nil => intro rest cur; simp [Convert.escapeChars]
  | cons c v ih =>
    intro rest cur
    by_cases hc : c = '"'
    · subst hc
      rw [show Convert.escapeChars ('"' :: v) = '"' :: '"' :: Convert.escapeChars v from by
          simp [Convert.escapeChars]]
      rw [List.cons_append, List.cons_append, parseLineAux_two_quotes, ih,
        List.append_assoc, List.singleton_append]
    · rw [show Convert.escapeChars (c :: v) = c :: Convert.escapeChars v from by
          simp [Convert.escapeChars, hc]]
      rw [List.cons_append, parseLineAux_cons_inQ c _ cur hc, ih,
        List.append_assoc, List.singleton_append]

theorem quoteField_append (v rest : List Char) :
    Convert.quoteField v ++ rest = '"' :: (Convert.escapeChars v ++ '"' :: rest) := by
  simp [Convert.quoteField]

theorem parseLineAux_quoted_fields : ∀ vs : List (List Char), vs ≠ [] →
    Convert.parseLineAux (joinSep ',' (vs.map Convert.quoteField)) [] false =
      vs.map (fun v => jsTrim ⟨v⟩) := by
  intro vs
  induction vs with
  | nil => intro h; exact absurd rfl h
  | cons v vs ih =>
    intro _
    cases vs with
    | nil =>
      show Convert.parseLineAux (Convert.quoteField v) [] false = [jsTrim ⟨v⟩]
      rw [show Convert.quoteField v = '"' :: (Convert.escapeChars v ++ '"' :: []) from rfl,
        parseLineAux_open, parseLineAux_escape v [] [], List.nil_append,
        parseLineAux_quote_nil]
    | cons w ws =>
      rw [List.map_cons, joinSep_cons_ne_nil ',' _ _ (by simp), quoteField_append,
        parseLineAux_open, parseLineAux_escape, List.nil_append,
        parseLineAux_quote_comma, ih (by simp), List.map_cons]
      rfl

theorem parseLineAux_plain_chunk : ∀ (l rest cur : List Char),
    (∀ c ∈ l, c ≠ '"' ∧ c ≠ ',') →
    Convert.parseLineAux (l ++ rest) cur false =
      Convert.parseLineAux rest (cur ++ l) false := by
  intro l
  induction l with
  | nil => intro rest cur h; simp
  | cons c l ih =>
    intro rest cur h
    obtain ⟨h1, h2⟩ := h c (List.mem_cons_self c l)
    rw [List.cons_append, parseLineAux_cons_other c _ cur false h1 h2,
      ih rest (cur ++ [c]) (fun d hd => h d (List.mem_cons_of_mem c hd)),
      List.append_assoc, List.singleton_append]

theorem parseLineAux_plain_fields : ∀ hs : List (List Char), hs ≠ [] →
    (∀ l ∈ hs, ∀ c ∈ l, c ≠ '"' ∧ c ≠ ',') →
    Convert.parseLineAux (joinSep ',' hs) [] false =
      hs.map (fun l => jsTrim ⟨l⟩) := by
  intro hs
  induction hs with
  | nil => intro h; exact absurd rfl h
  | cons x hs ih =>
    intro _ h
    cases hs with
    | nil =>
      have hchunk := parseLineAux_plain_chunk x [] []
        (fun c hc => h x (List.mem_cons_self x []) c hc)
      rw [List.append_nil] at hchunk
      rw [show joinSep ',' [x] = x from rfl, hchunk, List.nil_append]
      rfl
    | cons y ys =>
      rw [joinSep_cons_cons,
        parseLineAux_plain_chunk x _ [] (fun c hc => h x (List.mem_cons_self x _) c hc),
        List.nil_append,
        show Convert.parseLineAux (',' :: joinSep ',' (y :: ys)) x false =
          jsTrim ⟨x⟩ :: Convert.parseLineAux (joinSep ',' (y :: ys)) [] false from rfl,
        ih (by simp) (fun l hl => h l (List.mem_cons_of_mem x hl)), List.map_cons]
      rfl

theorem buildRow_zip : ∀ (hs vs : List String), vs.length = hs.length →
    Convert.buildRow hs vs = hs.zip vs := by
  intro hs
  induction hs with
  | nil => intro vs h; rfl
  | cons h t ih =>
    intro vs hl
    cases vs with
    | nil => simp at hl
    | cons v vt =>
      rw [Convert.buildRow, List.zip_cons_cons, ih vt (by simpa using hl)]

theorem lookup_append_notin (k : String) : ∀ (pre rest : List (String × String)),
    (∀ p ∈ pre, p.1 ≠ k) → List.lookup k (pre ++ rest) = List.lookup k rest := by
  intro pre
  induction pre with
  | nil => intro rest h; rfl
  | cons p pre ih =>
    intro rest h
    obtain ⟨a, b⟩ := p
    have ha : (k == a) = false :=
      beq_eq_false_iff_ne.mpr (fun he => h (a, b) (List.mem_cons_self _ _) he.symm)
    simp only [List.cons_append, List.lookup_cons, ha]
    exact ih rest (fun p hp => h p (List.mem_cons_of_mem _ hp))

theorem map_jsGetD_zip : ∀ (H r : List String) (pre : List (String × String)),
    H.Nodup → r.length = H.length → (∀ h ∈ H, ∀ p ∈ pre, p.1 ≠ h) →
    H.map (fun h => jsGetD (pre ++ H.zip r) h) = r := by
  intro H
  induction H with
  | nil =>
    intro r pre _ hl _
    cases r with
    | nil => rfl
    | cons v r => simp at hl
  | cons h H ih =>
    intro r pre hnd hl hpre
    cases r with
    | nil => simp at hl
    | cons v r =>
      rw [List.zip_cons_cons, List.map_cons]
      have hhead : jsGetD (pre ++ (h, v) :: H.zip r) h = v := by
        rw [jsGetD, jsGet,
          lookup_append_notin h pre _ (fun p hp => hpre h (List.mem_cons_self _ _) p hp)]
        simp [List.lookup_cons]
      have hshift : pre ++ (h, v) :: H.zip r = (pre ++ [(h, v)]) ++ H.zip r := by simp
      have htail : H.map (fun h' => jsGetD (pre ++ (h, v) :: H.zip r) h') = r := by
        rw [show (fun h' => jsGetD (pre ++ (h, v) :: H.zip r) h') =
            (fun h' => jsGetD ((pre ++ [(h, v)]) ++ H.zip r) h') from by rw [hshift]]
        refine ih r (pre ++ [(h, v)]) (List.nodup_cons.mp hnd).2 (by simpa using hl) ?_
        intro h' hh' p hp
        rcases List.mem_append.mp hp with h1 | h1
        · exact hpre h' (List.mem_cons_of_mem _ hh') p h1
        · rcases List.mem_cons.mp h1 with rfl | h2
          · intro he
            obtain rfl := he
            exact (List.nodup_cons.mp hnd).1 hh'
          · simp at h2
      rw [hhead, htail]

theorem serialize_row_values (H r : List String)
    (hnd : H.Nodup) (hl : r.length = H.length) :
    H.map (fun h => Convert.quoteField (jsGetD (H.zip r) h).data) =
      r.map (fun v => Convert.quoteField v.data) := by
  have h0 := map_jsGetD_zip H r [] hnd hl (by simp)
  simp only [List.nil_append] at h0
  conv_rhs => rw [← h0, List.map_map]
  rfl

theorem filterMap_eq_map_of_some {α β : Type} (f : α → Option β) (g : α → β) :
    ∀ l : List α, (∀ a ∈ l, f a = some (g a)) → l.filterMap f = l.map g := by
  intro l
  induction l with
  | nil => intro h; rfl
  | cons a l ih =>
    intro h
    rw [List.filterMap_cons_some (h a (List.mem_cons_self _ _)), List.map_cons,
      ih (fun b hb => h b (List.mem_cons_of_mem a hb))]

theorem parseCSV_eq_of_split (content : String) (hdr : List Char) (rows : List (List Char))
    (hsplit : splitSep '\n' content.data = hdr :: rows)
    (hkeepH : jsTrim ⟨hdr⟩ ≠ "") (hkeepR : ∀ l ∈ rows, jsTrim ⟨l⟩ ≠ "") :
    Convert.parseCSV content =
      (rows.map (fun l => Convert.parseLineAux l [] false)).filterMap
        (fun values =>
          if values.any (fun v => !(v == "") && !(jsTrim v == "")) then
            some (Convert.buildRow (Convert.parseLineAux hdr [] false) values)
          else none) := by
  unfold Convert.parseCSV
  rw [hsplit, List.map_cons,
    List.filter_cons_of_pos (by simpa using hkeepH),
    List.filter_eq_self.mpr (by
      intro a ha
      obtain ⟨l, hl, rfl⟩ := List.mem_map.mp ha
      simpa using hkeepR l hl)]
  simp only [List.map_map]
  rfl

theorem mem_escapeChars (c : Char) : ∀ v : List Char,
    c ∈ Convert.escapeChars v → c = '"' ∨ c ∈ v := by
  intro v
  induction v with
  | nil => intro h; simp [Convert.escapeChars] at h
  | cons d v ih =>
    intro h
    by_cases hd : d = '"'
    · subst hd
      simp only [Convert.escapeChars, if_pos rfl] at h
      rcases List.mem_cons.mp h with rfl | h1
      · exact Or.inl rfl
      rcases List.mem_cons.mp h1 with rfl | h2
      · exact Or.inl rfl
      · rcases ih h2 with h3 | h3
        · exact Or.inl h3
        · exact Or.inr (List.mem_cons_of_mem _ h3)
    · simp only [Convert.escapeChars, if_neg hd] at h
      rcases List.mem_cons.mp h with rfl | h1
      · exact Or.inr (List.mem_cons_self _ _)
      · rcases ih h1 with h3 | h3
        · exact Or.inl h3
        · exact Or.inr (List.mem_cons_of_mem _ h3)

/-- C1 counterexample: with header `a` and a single row whose only field
is ` x ` — no field contains a raw newline, so the claim's hypothesis
holds — the round trip returns the trimmed field `x`, not ` x `: the
parser trims every field, so parsing the serialized output does not
reproduce the rows. -/
theorem csv_roundtrip_counterexample :
    Convert.parseCSV (Convert.arrayToCSV [[("a", " x ")]] ["a"]) ≠ [[("a", " x ")]] := by
  decide

/-- C1 (amended): parsing the serialized output reproduces the rows
exactly, provided the headers are duplicate-free, contain no quote, comma
or newline, are trim-invariant and form a non-blank header line, and
every row has one field per header with every field newline-free and
trim-invariant and at least one field non-empty (the parser trims each
field and drops all-blank rows, so these restrictions are forced). -/
theorem csv_roundtrip_trimmed (H : List String) (R : List (List String))
    (hnd : H.Nodup)
    (hH : ∀ h ∈ H, (∀ c ∈ h.data, c ≠ '"' ∧ c ≠ ',' ∧ c ≠ '\n') ∧ jsTrim h = h)
    (hline : jsTrim ⟨joinSep ',' (H.map String.data)⟩ ≠ "")
    (hR : ∀ r ∈ R, r.length = H.length ∧ (∀ v ∈ r, '\n' ∉ v.data ∧ jsTrim v = v) ∧
      ∃ v ∈ r, v ≠ "") :
    Convert.parseCSV (Convert.arrayToCSV (R.map fun r => H.zip r) H) =
      R.map fun r => H.zip r := by
  have hHne : H ≠ [] := by
    intro h0
    subst h0
    exact hline rfl
  have hrne : ∀ r ∈ R, r ≠ [] := by
    intro r hr h0
    subst h0
    exact hHne (List.length_eq_zero.mp ((hR [] hr).1).symm)
  have hmaps : (R.map fun r => H.zip r).map (fun row =>
        joinSep ',' (H.map fun h => Convert.quoteField (jsGetD row h).data)) =
      R.map fun r => joinSep ',' (r.map fun v => Convert.quoteField v.data) := by
    rw [List.map_map]
    refine List.map_congr_left ?_
    intro r hr
    show joinSep ',' (H.map fun h => Convert.quoteField (jsGetD (H.zip r) h).data) = _
    rw [serialize_row_values H r hnd (hR r hr).1]
  have hdata : (Convert.arrayToCSV (R.map fun r => H.zip r) H).data =
      joinSep '\n' (joinSep ',' (H.map String.data) ::
        R.map fun r => joinSep ',' (r.map fun v => Convert.quoteField v.data)) := by
    show joinSep '\n' (joinSep ',' (H.map String.data) ::
        (R.map fun r => H.zip r).map (fun row =>
          joinSep ',' (H.map fun h => Convert.quoteField (jsGetD row h).data))) = _
    exact congrArg (fun t => joinSep '\n' (joinSep ',' (H.map String.data) :: t)) hmaps
  have hnosep_hdr : '\n' ∉ joinSep ',' (H.map String.data) := by
    intro hmem
    rcases mem_joinSep ',' _ '\n' hmem with h1 | ⟨l, hl, hc⟩
    · exact absurd h1 (by decide)
    · obtain ⟨a, ha, rfl⟩ := List.mem_map.mp hl
      exact ((hH a ha).1 '\n' hc).2.2 rfl
  have hnosep_row : ∀ r ∈ R,
      '\n' ∉ joinSep ',' (r.map fun v => Convert.quoteField v.data) := by
    intro r hr hmem
    rcases mem_joinSep ',' _ '\n' hmem with h1 | ⟨l, hl, hc⟩
    · exact absurd h1 (by decide)
    · obtain ⟨v, hv, rfl⟩ := List.mem_map.mp hl
      rcases List.mem_cons.mp hc with h2 | h2
      · exact absurd h2 (by decide)
      · rcases List.mem_append.mp h2 with h3 | h3
        · rcases mem_escapeChars '\n' v.data h3 with h4 | h4
          · exact absurd h4 (by decide)
          · exact ((hR r hr).2.1 v hv).1 h4
        · simp only [List.mem_singleton] at h3
          exact absurd h3 (by decide)
  have hsplit : splitSep '\n' (Convert.arrayToCSV (R.map fun r => H.zip r) H).data =
      joinSep ',' (H.map String.data) ::
        R.map (fun r => joinSep ',' (r.map fun v => Convert.quoteField v.data)) := by
    rw [hdata]
    refine splitSep_joinSep '\n' _ (by simp) ?_
    intro l hl
    rcases List.mem_cons.mp hl with rfl | h1
    · exact hnosep_hdr
    · obtain ⟨r, hr, rfl⟩ := List.mem_map.mp h1
      exact hnosep_row r hr
  have hkeepR : ∀ l ∈ R.map (fun r => joinSep ',' (r.map fun v => Convert.quoteField v.data)),
      jsTrim ⟨l⟩ ≠ "" := by
    intro l hl
    obtain ⟨r, hr, rfl⟩ := List.mem_map.mp hl
    obtain ⟨v, hv⟩ := List.exists_mem_of_ne_nil r (hrne r hr)
    refine jsTrim_mk_ne_empty _ '"' ?_ (by decide)
    exact mem_joinSep_of_mem ',' _ (Convert.quoteField v.data) '"'
      (List.mem_map_of_mem _ hv) (List.mem_cons_self _ _)
  have hheaders : Convert.parseLineAux (joinSep ',' (H.map String.data)) [] false = H := by
    rw [parseLineAux_plain_fields (H.map String.data) (by simpa using hHne)
      (by
        intro l hl c hc
        obtain ⟨a, ha, rfl⟩ := List.mem_map.mp hl
        exact ⟨((hH a ha).1 c hc).1, ((hH a ha).1 c hc).2.1⟩)]
    rw [List.map_map]
    calc H.map ((fun l => jsTrim ⟨l⟩) ∘ String.data)
        = H.map id := List.map_congr_left (fun a ha => (hH a ha).2)
      _ = H := List.map_id H
  have hparse : ∀ r ∈ R,
      Convert.parseLineAux (joinSep ',' (r.map fun v => Convert.quoteField v.data)) [] false
        = r := by
    intro r hr
    rw [show (r.map fun v => Convert.quoteField v.data) =
        (r.map String.data).map Convert.quoteField from by rw [List.map_map]; rfl]
    rw [parseLineAux_quoted_fields (r.map String.data) (by simpa using hrne r hr)]
    rw [List.map_map]
    calc r.map ((fun v => jsTrim ⟨v⟩) ∘ String.data)
        = r.map id := List.map_congr_left (fun v hv => ((hR r hr).2.1 v hv).2)
      _ = r := List.map_id r
  have hcontent : ∀ r ∈ R,
      (r.any fun v => !(v == "") && !(jsTrim v == "")) = true := by
    intro r hr
    obtain ⟨v, hv, hne⟩ := (hR r hr).2.2
    refine List.any_eq_true.mpr ⟨v, hv, ?_⟩
    have ht : jsTrim v = v := ((hR r hr).2.1 v hv).2
    simp [hne, ht]
  rw [parseCSV_eq_of_split _ _ _ hsplit hline hkeepR, hheaders, List.filterMap_map,
    List.filterMap_map]
  refine filterMap_eq_map_of_some _ _ R ?_
  intro r hr
  simp only [Function.comp_apply]
  rw [hparse r hr, if_pos (hcontent r hr), buildRow_zip H r (hR r hr).1]

theorem csv_roundtrip_trimmed_witness :
    Convert.parseCSV (Convert.arrayToCSV
        ([["1", "2"]].map fun r => ["a", "b"].zip r) ["a", "b"]) =
      [["1", "2"]].map fun r => ["a", "b"].zip r :=
  csv_roundtrip_trimmed ["a", "b"] [["1", "2"]]
    (by decide) (by decide) (by decide) (by decide)
